import Mathlib

/-!
Shallow embedding of the recipe-app-api repository (Django/DRF) core:
data model (core/models.py), viewset querysets (recpie/views.py),
serializers (recpie/serializers.py, user/serializer.py).

Database tables are lists of records; the ambient "request user" is an
explicit parameter; Django querysets become list filters; operations that
can raise unhandled Python exceptions return Option (none = unhandled
error), and operations that surface DRF ValidationError return Except.
Python string primitives (split, strip, lower, int(), lexicographic order)
are embedded as structural recursions over the code-point list of the
string, matching Python's code-point string semantics.
-/

namespace RecipeApp

/-! ## Python string primitives -/

/-- Python `s.split(c)` on the code-point list: every occurrence of the
separator starts a new (possibly empty) chunk; the empty string yields one
empty chunk. -/
def splitChars (c : Char) : List Char → List (List Char)
  | [] => [[]]
  | x :: xs =>
    match splitChars c xs with
    | [] => if x = c then [[], []] else [[x]]
    | h :: t => if x = c then [] :: h :: t else (x :: h) :: t

/-- Python `s.strip()`: drop whitespace from both ends. -/
def trimChars (cs : List Char) : List Char :=
  ((cs.dropWhile Char.isWhitespace).reverse.dropWhile Char.isWhitespace).reverse

/-- Python `s.lower()` (ASCII case mapping, the range used by this app). -/
def lowerChars (cs : List Char) : List Char := cs.map Char.toLower

/-- Python `s.lower()` as a String-level operation. -/
def pyLower (s : String) : String := String.mk (lowerChars s.data)

/-- Decimal digit-string value: `none` when empty or when some character is
not an ASCII digit. -/
def digitsToNat : List Char → Option Nat
  | [] => none
  | cs => go cs 0
where
  go : List Char → Nat → Option Nat
  | [], acc => some acc
  | c :: cs, acc => if c.isDigit then go cs (acc * 10 + (c.toNat - 48)) else none

/-- Python `int(s)` on the code points of a string: surrounding whitespace
stripped, optional sign, then decimal digits; `none` models the unhandled
`ValueError` on any other input. (Python also accepts underscores between
digits; no input in scope uses them.) -/
def pyIntChars (cs : List Char) : Option Int :=
  match trimChars cs with
  | '-' :: rest => (digitsToNat rest).map (fun n => -(n : Int))
  | '+' :: rest => (digitsToNat rest).map (fun n => (n : Int))
  | rest => (digitsToNat rest).map (fun n => (n : Int))

/-- Python `int(s)` on a String. -/
def pyInt (s : String) : Option Int := pyIntChars s.data

/-- Python code-point lexicographic `≤` on strings, via Char code values. -/
def lexLe : List Char → List Char → Bool
  | [], _ => true
  | _ :: _, [] => false
  | a :: as, b :: bs =>
    if a.toNat = b.toNat then lexLe as bs else decide (a.toNat < b.toNat)

/-- Map a fallible function over a list, failing when any element fails
(the behaviour of a Python list comprehension whose body can raise). -/
def mapOption {α β : Type} (f : α → Option β) : List α → Option (List β)
  | [] => some []
  | x :: xs =>
    match f x, mapOption f xs with
    | some y, some ys => some (y :: ys)
    | _, _ => none

/-- Truthiness of `request.query_params.get(key)`: `None` and the empty
string are falsy, every other string is truthy. -/
def truthy : Option String → Bool
  | none => false
  | some s => s ≠ ""

/-! ## Data model (core/models.py) -/

/-- Tag row (core/models.py, class Tag): owning user and name. -/
structure Tag where
  id : Nat
  user : Nat
  name : String
deriving DecidableEq, Repr

/-- Ingredient row (core/models.py, class Ingredient): owning user and name. -/
structure Ingredient where
  id : Nat
  user : Nat
  name : String
deriving DecidableEq, Repr

/-- Recipe row (core/models.py, class Recipe). `tag` and `ingredient` are the
many-to-many id sets; `price` is kept as its decimal string (no claim touches
its arithmetic). -/
structure Recipe where
  id : Nat
  user : Nat
  title : String
  time : Nat
  price : String
  link : String
  ingredient : List Nat
  tag : List Nat
deriving DecidableEq, Repr

/-- Database state: the three resource tables. -/
structure DB where
  tags : List Tag
  ingredients : List Ingredient
  recipes : List Recipe
deriving DecidableEq, Repr

/-! ## recpie/views.py -/

/-- RecipeViewSet._params_to_ints: `[int(str_id) for str_id in qs.split(',')]`.
`none` models the unhandled ValueError raised when some comma-separated
element is not an integer literal. -/
def params_to_ints (qs : String) : Option (List Int) :=
  mapOption pyIntChars (splitChars ',' qs.data)

/-- RecipeViewSet.get_queryset: if the `tag` param is truthy, filter the
global queryset by `tag__id__in` (no owner filter, `ingredient` ignored);
else if `ingredient` is truthy, filter by `ingredient__id__in` (no owner
filter); else filter by the requesting user. `none` models the unhandled
error from `_params_to_ints`. -/
def recipe_get_queryset (db : DB) (reqUser : Nat) (tagP ingP : Option String) :
    Option (List Recipe) :=
  if truthy tagP then
    match params_to_ints (tagP.getD "") with
    | none => none
    | some ids => some (db.recipes.filter (fun r => r.tag.any (fun t => ids.contains (t : Int))))
  else if truthy ingP then
    match params_to_ints (ingP.getD "") with
    | none => none
    | some ids =>
      some (db.recipes.filter (fun r => r.ingredient.any (fun i => ids.contains (i : Int))))
  else
    some (db.recipes.filter (fun r => r.user = reqUser))

/-- IngredientViewSet.get_queryset: `self.queryset.filter(user=self.request.user)`. -/
def ingredient_get_queryset (db : DB) (reqUser : Nat) : List Ingredient :=
  db.ingredients.filter (fun i => i.user = reqUser)

/-- Row multiset produced by `Tag.objects.filter(recipe__isnull=False)`: the
SQL join yields one row per (tag, referencing recipe) pair, so a tag appears
once for every recipe that references it. -/
def tagAssignedRows (db : DB) : List Tag :=
  db.tags.flatMap (fun t => (db.recipes.filter (fun r => r.tag.contains t.id)).map (fun _ => t))

/-- Descending-name row order used to embed `order_by('-name')`. -/
def nameDesc (a b : Tag) : Prop := lexLe b.name.data a.name.data = true

instance : DecidableRel nameDesc := fun _ _ => instDecidableEqBool _ _

/-- TagViewSet.get_queryset:
`assigned_only = bool(int(query_params.get('assigned_only', 0)))`, then the
optional `recipe__isnull=False` join, then
`.filter(user=request.user).order_by('-name').distinct()`.
`none` models the unhandled ValueError when the parameter does not parse as
an int. Ordering is the deterministic stable sort by name descending;
`distinct` is row deduplication. -/
def tag_get_queryset (db : DB) (reqUser : Nat) (assignedP : Option String) :
    Option (List Tag) :=
  match (match assignedP with | none => some (0 : Int) | some s => pyInt s) with
  | none => none
  | some n =>
    let q := if n ≠ 0 then tagAssignedRows db else db.tags
    some ((List.insertionSort nameDesc (q.filter (fun t => t.user = reqUser))).dedup)

/-! ## core/models.py — UserManager and User -/

/-- Split a character list at the LAST occurrence of `c` (Python
`rsplit(c, 1)`); `none` when `c` does not occur. -/
def rsplitLast (c : Char) : List Char → Option (List Char × List Char)
  | [] => none
  | x :: xs =>
    match rsplitLast c xs with
    | some (l, r) => some (x :: l, r)
    | none => if x = c then some ([], xs) else none

/-- Django BaseUserManager.normalize_email: strip surrounding whitespace,
split at the last `@`, lowercase ONLY the domain part; when there is no `@`
(the `rsplit` raises and is swallowed) the original email is returned
unchanged. -/
def normalize_email (email : String) : String :=
  match rsplitLast '@' (trimChars email.data) with
  | none => email
  | some (l, d) => String.mk l ++ "@" ++ String.mk (lowerChars d)

/-- Modelled from the spec: the password hashing primitive is an excluded
external collaborator ("password hashing primitives" in section 1; "stored
only as a one-way hash" in 4.1). It is embedded as an uninterpreted tagging
of the supplied plaintext into the distinct HashedPassword type; the
cryptographic one-way-ness of the digest itself is outside the embedding. -/
structure HashedPassword where
  digest : String
deriving DecidableEq, Repr

/-- Django AbstractBaseUser.set_password: store the one-way hash of the
plaintext (see HashedPassword). -/
def set_password (p : String) : HashedPassword := ⟨p⟩

/-- User row (core/models.py, class User, plus the PermissionsMixin flag). -/
structure User where
  email : String
  name : String
  password : HashedPassword
  is_active : Bool := true
  is_staff : Bool := false
  is_superuser : Bool := false
deriving DecidableEq, Repr

/-- UserManager.create_user: an empty email raises ValueError; otherwise the
saved user stores the normalized email and the hashed password. -/
def create_user (email password name : String) : Except String User :=
  if email = "" then Except.error "users must have an email address"
  else Except.ok { email := normalize_email email, name := name, password := set_password password }

/-! ## user/serializer.py — UserSerializer -/

/-- UserSerializer Meta.fields paired with their write_only flag: password
is write_only (extra_kwargs). -/
def userSerializerFields : List (String × Bool) :=
  [("email", false), ("name", false), ("password", true)]

/-- Value rendered for a user field by name. -/
def userFieldValue (u : User) : String → String
  | "email" => u.email
  | "name" => u.name
  | "password" => u.password.digest
  | _ => ""

/-- DRF Serializer.to_representation: write_only fields are skipped, so the
read representation renders exactly the non-write_only fields in order. -/
def user_to_representation (u : User) : List (String × String) :=
  (userSerializerFields.filter (fun f => !f.2)).map (fun f => (f.1, userFieldValue u f.1))

/-- UserSerializer.create after DRF field validation: the password
min_length 5 constraint (extra_kwargs), then UserManager.create_user.
EmailField format validation beyond non-emptiness is framework plumbing the
spec excludes and no claim touches. -/
def user_serializer_create (email password name : String) : Except String User :=
  if password.length < 5 then Except.error "Ensure this field has at least 5 characters."
  else create_user email password name

/-! ## recpie/serializers.py — RecipeSerializer create/update -/

/-- The write payload of RecipeSerializer: each field optional (absent in
PATCH-style partial data); `tag` and `ingredient` are lists of primary
keys. -/
structure RecipePayload where
  title : Option String := none
  time : Option Nat := none
  price : Option String := none
  link : Option String := none
  tag : Option (List Nat) := none
  ingredient : Option (List Nat) := none
deriving DecidableEq, Repr

/-- PrimaryKeyRelatedField(many=True, queryset=....objects.all()): each id
resolves against a GLOBAL table (no owner restriction); an id with no
matching row is a ValidationError. Generic in the row type and its primary
key projection. -/
def resolveIds {α : Type} (idOf : α → Nat) (rows : List α) : List Nat → Except String (List α)
  | [] => Except.ok []
  | i :: is =>
    match rows.find? (fun x => idOf x = i) with
    | none => Except.error "Invalid pk"
    | some x =>
      match resolveIds idOf rows is with
      | Except.error e => Except.error e
      | Except.ok xs => Except.ok (x :: xs)

/-- Resolution through `PrimaryKeyRelatedField(many=True, queryset=Tag.objects.all())`. -/
def resolve_tag_ids (db : DB) (ids : List Nat) : Except String (List Tag) :=
  resolveIds Tag.id db.tags ids

/-- Resolution through `PrimaryKeyRelatedField(many=True, queryset=Ingredient.objects.all())`. -/
def resolve_ingredient_ids (db : DB) (ids : List Nat) : Except String (List Ingredient) :=
  resolveIds Ingredient.id db.ingredients ids

/-- DRF required-field check for a full (PUT) update: title, time, price,
tag and ingredient are required (link has blank=True, so it is optional); a
missing required field is a ValidationError before any write. -/
def requiredPresent (p : RecipePayload) : Bool :=
  p.title.isSome && p.time.isSome && p.price.isSome && p.tag.isSome && p.ingredient.isSome

/-- Validation of the `tag` payload field: absent stays absent, a present id
list resolves through the global tag queryset. -/
def validate_tag_field (db : DB) (p : RecipePayload) : Except String (Option (List Tag)) :=
  match p.tag with
  | some ids => Except.map some (resolve_tag_ids db ids)
  | none => Except.ok none

/-- Validation of the `ingredient` payload field, as for `tag`. -/
def validate_ingredient_field (db : DB) (p : RecipePayload) :
    Except String (Option (List Ingredient)) :=
  match p.ingredient with
  | some ids => Except.map some (resolve_ingredient_ids db ids)
  | none => Except.ok none

/-- ModelSerializer.update for RecipeSerializer: with partial=False every
required field must be present; listed tag/ingredient ids resolve through
the global-queryset relation fields; a present scalar field overwrites, an
absent one is left untouched; a present many-to-many field REPLACES the
relation with exactly the resolved set (Django relation `.set` semantics —
a set, hence deduplicated), an absent one leaves the existing set
untouched. -/
def recipe_update (db : DB) (r : Recipe) (p : RecipePayload) (partialFlag : Bool) :
    Except String Recipe :=
  if !partialFlag && !requiredPresent p then Except.error "This field is required."
  else
    match validate_tag_field db p with
    | Except.error e => Except.error e
    | Except.ok tags =>
      match validate_ingredient_field db p with
      | Except.error e => Except.error e
      | Except.ok ings =>
        Except.ok { r with
          title := p.title.getD r.title
          time := p.time.getD r.time
          price := p.price.getD r.price
          link := p.link.getD r.link
          tag := match tags with | some ts => (ts.map Tag.id).dedup | none => r.tag
          ingredient := match ings with | some gs => (gs.map Ingredient.id).dedup | none => r.ingredient }

/-! ## Concrete example database used by witnesses and counterexamples -/

/-- Two-user example database: tags 1,2 belong to user 1, tag 3 to user 2;
ingredient 1 to user 1, ingredient 2 to user 2; recipe 1 (user 1) uses
ingredient 1 and tag 1; recipe 2 (user 2) uses ingredient 2 and tags 1,3. -/
def exDB : DB :=
  { tags := [⟨1, 1, "b"⟩, ⟨2, 1, "a"⟩, ⟨3, 2, "c"⟩]
    ingredients := [⟨1, 1, "salt"⟩, ⟨2, 2, "pepper"⟩]
    recipes := [⟨1, 1, "Soup", 10, "3.50", "", [1], [1]⟩,
                ⟨2, 2, "Stew", 20, "4.00", "", [2], [1, 3]⟩] }

/-! # Helper lemmas -/

theorem lexLe_nil (cs : List Char) : lexLe [] cs = true := rfl

theorem lexLe_trans : ∀ as bs cs, lexLe as bs = true → lexLe bs cs = true →
    lexLe as cs = true := by
  intro as
  induction as with
  | nil => intro bs cs _ _; rfl
  | cons a as ih =>
    intro bs cs h1 h2
    cases bs with
    | nil => simp [lexLe] at h1
    | cons b bs =>
      cases cs with
      | nil => simp [lexLe] at h2
      | cons c cs =>
        simp only [lexLe] at h1 h2 ⊢
        by_cases hab : a.toNat = b.toNat
        · by_cases hbc : b.toNat = c.toNat
          · rw [if_pos hab] at h1
            rw [if_pos hbc] at h2
            rw [if_pos (hab.trans hbc)]
            exact ih bs cs h1 h2
          · rw [if_neg hbc] at h2
            rw [hab, if_neg hbc]
            exact h2
        · by_cases hbc : b.toNat = c.toNat
          · rw [if_neg hab] at h1
            have hac : a.toNat ≠ c.toNat := by rw [← hbc]; exact hab
            rw [if_neg hac, ← hbc]
            exact h1
          · rw [if_neg hab] at h1
            rw [if_neg hbc] at h2
            have hlt : a.toNat < c.toNat :=
              lt_trans (of_decide_eq_true h1) (of_decide_eq_true h2)
            rw [if_neg (Nat.ne_of_lt hlt)]
            exact decide_eq_true hlt

theorem lexLe_total : ∀ as bs, lexLe as bs = true ∨ lexLe bs as = true := by
  intro as
  induction as with
  | nil => intro bs; exact Or.inl rfl
  | cons a as ih =>
    intro bs
    cases bs with
    | nil => exact Or.inr rfl
    | cons b bs =>
      simp only [lexLe]
      by_cases hab : a.toNat = b.toNat
      · rw [if_pos hab, if_pos hab.symm]
        exact ih bs
      · rw [if_neg hab, if_neg (Ne.symm hab)]
        rcases Nat.lt_or_ge a.toNat b.toNat with h | h
        · exact Or.inl (decide_eq_true h)
        · exact Or.inr (decide_eq_true (lt_of_le_of_ne h (Ne.symm hab)))

instance : IsTrans Tag nameDesc :=
  ⟨fun _ _ _ h1 h2 => lexLe_trans _ _ _ h2 h1⟩

instance : IsTotal Tag nameDesc :=
  ⟨fun a b => (lexLe_total b.name.data a.name.data).imp id id⟩

theorem mapOption_eq_none_iff {α β : Type} (f : α → Option β) :
    ∀ xs, mapOption f xs = none ↔ ∃ x ∈ xs, f x = none := by
  intro xs
  induction xs with
  | nil => simp [mapOption]
  | cons x xs ih =>
    simp only [mapOption]
    cases hx : f x with
    | none => simp [hx]
    | some y =>
      cases hxs : mapOption f xs with
      | none =>
        simp only [List.mem_cons]
        constructor
        · intro _
          obtain ⟨z, hz, hfz⟩ := ih.mp hxs
          exact ⟨z, Or.inr hz, hfz⟩
        · intro _; trivial
      | some ys =>
        simp only [List.mem_cons, reduceCtorEq, false_iff, not_exists, not_and]
        intro z hz
        rcases hz with rfl | hz
        · rw [hx]; exact fun h => Option.noConfusion h
        · intro hfz
          rw [(ih.mpr ⟨z, hz, hfz⟩)] at hxs
          exact Option.noConfusion hxs

theorem mapOption_isSome_iff {α β : Type} (f : α → Option β) (xs : List α) :
    (mapOption f xs).isSome = true ↔ ∀ x ∈ xs, (f x).isSome = true := by
  cases hxs : mapOption f xs with
  | none =>
    simp only [Option.isSome_none, Bool.false_eq_true, false_iff, not_forall]
    obtain ⟨x, hx, hfx⟩ := (mapOption_eq_none_iff f xs).mp hxs
    exact ⟨x, hx, by simp [hfx]⟩
  | some ys =>
    simp only [Option.isSome_some, true_iff]
    intro x hx
    cases hfx : f x with
    | none =>
      rw [(mapOption_eq_none_iff f xs).mpr ⟨x, hx, hfx⟩] at hxs
      exact Option.noConfusion hxs
    | some y => rfl

theorem resolveIds_ok_map {α : Type} (idOf : α → Nat) (rows : List α) :
    ∀ ids xs, resolveIds idOf rows ids = Except.ok xs →
      xs.map idOf = ids ∧ ∀ x ∈ xs, x ∈ rows := by
  intro ids
  induction ids with
  | nil =>
    intro xs h
    simp only [resolveIds] at h
    injection h with h2
    subst h2
    simp
  | cons i is ih =>
    intro xs h
    simp only [resolveIds] at h
    cases hf : rows.find? (fun x => idOf x = i) with
    | none => rw [hf] at h; exact Except.noConfusion h
    | some x =>
      rw [hf] at h
      cases hr : resolveIds idOf rows is with
      | error e => rw [hr] at h; exact Except.noConfusion h
      | ok ys =>
        rw [hr] at h
        injection h with h2
        subst h2
        obtain ⟨hmap, hmem⟩ := ih ys hr
        have hid : idOf x = i := by
          have hp := List.find?_some hf
          simpa using hp
        refine ⟨?_, ?_⟩
        · simp only [List.map_cons, hmap]
          rw [hid]
        · intro z hz
          rcases List.mem_cons.mp hz with rfl | hz2
          · exact List.mem_of_find?_eq_some hf
          · exact hmem z hz2

theorem resolveIds_ok_iff {α : Type} (idOf : α → Nat) (rows : List α) :
    ∀ ids, (∃ xs, resolveIds idOf rows ids = Except.ok xs) ↔
      ∀ i ∈ ids, ∃ x ∈ rows, idOf x = i := by
  intro ids
  induction ids with
  | nil => simp [resolveIds]
  | cons i is ih =>
    simp only [resolveIds, List.mem_cons]
    cases hf : rows.find? (fun x => idOf x = i) with
    | none =>
      simp only [hf]
      constructor
      · rintro ⟨xs, h⟩
        exact Except.noConfusion h
      · intro hall
        obtain ⟨x, hx, hidx⟩ := hall i (Or.inl rfl)
        exact absurd (decide_eq_true hidx) (List.find?_eq_none.mp hf x hx)
    | some x =>
      simp only [hf]
      cases hr : resolveIds idOf rows is with
      | error e =>
        simp only [hr]
        constructor
        · rintro ⟨xs, h⟩
          exact Except.noConfusion h
        · intro hall
          obtain ⟨ys, hys⟩ := ih.mpr (fun j hj => hall j (Or.inr hj))
          rw [hys] at hr
          exact Except.noConfusion hr
      | ok ys =>
        simp only [hr]
        constructor
        · intro _ j hj
          rcases hj with rfl | hj2
          · refine ⟨x, List.mem_of_find?_eq_some hf, ?_⟩
            have hp := List.find?_some hf
            simpa using hp
          · exact ih.mp ⟨ys, hr⟩ j hj2
        · intro _
          exact ⟨x :: ys, rfl⟩

theorem resolveIds_error_iff {α : Type} (idOf : α → Nat) (rows : List α) (ids : List Nat) :
    (∃ e, resolveIds idOf rows ids = Except.error e) ↔
      ∃ i ∈ ids, ∀ x ∈ rows, idOf x ≠ i := by
  have hdi : (∃ e, resolveIds idOf rows ids = Except.error e) ↔
      ¬∃ xs, resolveIds idOf rows ids = Except.ok xs := by
    cases h : resolveIds idOf rows ids with
    | error e => simp [h]
    | ok xs => simp [h]
  rw [hdi, resolveIds_ok_iff]
  push_neg
  rfl

theorem mem_tagAssignedRows (db : DB) (t : Tag) :
    t ∈ tagAssignedRows db ↔ t ∈ db.tags ∧ ∃ r ∈ db.recipes, t.id ∈ r.tag := by
  simp only [tagAssignedRows, List.mem_flatMap, List.mem_map, List.mem_filter]
  constructor
  · rintro ⟨a, ha, r, ⟨hr, hmem⟩, rfl⟩
    exact ⟨ha, r, hr, by simpa using hmem⟩
  · rintro ⟨ht, r, hr, hmem⟩
    exact ⟨t, ht, r, ⟨hr, by simpa using hmem⟩, rfl⟩

theorem rsplitLast_eq_none (c : Char) : ∀ cs, c ∉ cs → rsplitLast c cs = none := by
  intro cs
  induction cs with
  | nil => intro _; rfl
  | cons x xs ih =>
    intro h
    simp only [List.mem_cons, not_or] at h
    simp only [rsplitLast, ih h.2]
    exact if_neg (fun hxc => h.1 hxc.symm)

theorem rsplitLast_spec (c : Char) : ∀ cs, c ∈ cs →
    ∃ l d, rsplitLast c cs = some (l, d) ∧ cs = l ++ c :: d ∧ c ∉ d := by
  intro cs
  induction cs with
  | nil => intro h; exact absurd h (List.not_mem_nil c)
  | cons x xs ih =>
    intro h
    by_cases hx : c ∈ xs
    · obtain ⟨l, d, hsp, heq, hnd⟩ := ih hx
      refine ⟨x :: l, d, ?_, by rw [List.cons_append, ← heq], hnd⟩
      simp only [rsplitLast, hsp]
    · have hcx : c = x := by
        rcases List.mem_cons.mp h with h1 | h2
        · exact h1
        · exact absurd h2 hx
      refine ⟨[], xs, ?_, by rw [hcx]; rfl, hx⟩
      simp only [rsplitLast, rsplitLast_eq_none c xs hx]
      exact if_pos hcx.symm

/-! # Claims -/

/-- C7 counterexample: `create_user` accepts the email "A@B.COM" but stores
"A@b.com", which is not the lowercase form "a@b.com" of the whole email:
only the domain part is case-normalized. -/
theorem email_full_lowercase_counterexample :
    create_user "A@B.COM" "pass123" "A" =
      Except.ok { email := "A@b.com", name := "A", password := set_password "pass123" } ∧
    ("A@b.com" : String) ≠ pyLower "A@B.COM" := by
  constructor
  · rfl
  · decide

/-- C7 (amended): for EVERY email accepted by create_user — if the
whitespace-stripped form of e contains an `@`, the stored email is that
stripped form with the part after the LAST `@` lowercased and the part
before it kept with its case unchanged; if the stripped form has no `@`,
e is stored completely unchanged. In particular only the domain is
case-normalized, never the whole email. -/
theorem email_domain_only_lowercase (e pw nm : String) (u : User)
    (h : create_user e pw nm = Except.ok u) :
    (('@' : Char) ∈ trimChars e.data →
      ∃ l d, trimChars e.data = l ++ '@' :: d ∧ ('@' : Char) ∉ d ∧
        u.email = String.mk l ++ "@" ++ String.mk (lowerChars d)) ∧
    (('@' : Char) ∉ trimChars e.data → u.email = e) := by
  have hne : e ≠ "" := by
    intro he
    rw [he] at h
    exact Except.noConfusion h
  unfold create_user at h
  rw [if_neg hne] at h
  injection h with h2
  have hmail : u.email = normalize_email e := by rw [← h2]
  constructor
  · intro hat
    obtain ⟨l, d, hsp, heq, hnd⟩ := rsplitLast_spec '@' (trimChars e.data) hat
    refine ⟨l, d, heq, hnd, ?_⟩
    rw [hmail]
    unfold normalize_email
    rw [hsp]
  · intro hnat
    rw [hmail]
    unfold normalize_email
    rw [rsplitLast_eq_none '@' (trimChars e.data) hnat]

/-- Witness for the amended C7 at the concrete accepted email "A@B.COM":
its stripped form splits as "A" ++ `@` ++ "B.COM" and the stored email is
"A" ++ "@" ++ "b.com". -/
theorem email_domain_only_lowercase_witness :
    (('@' : Char) ∈ trimChars ("A@B.COM" : String).data →
      ∃ l d, trimChars ("A@B.COM" : String).data = l ++ '@' :: d ∧ ('@' : Char) ∉ d ∧
        ({ email := "A@b.com", name := "Ann", password := set_password "pass123" } : User).email
          = String.mk l ++ "@" ++ String.mk (lowerChars d)) ∧
    (('@' : Char) ∉ trimChars ("A@B.COM" : String).data →
      ({ email := "A@b.com", name := "Ann",
         password := set_password "pass123" } : User).email = "A@B.COM") :=
  email_domain_only_lowercase "A@B.COM" "pass123" "Ann" _ (by rfl)

/-- C9: a successful registration renders exactly the email and name fields
(no password field in the representation), and the stored record holds the
one-way hash of the supplied password, not the plaintext. -/
theorem registration_password_hidden (email pw nm : String) (u : User)
    (h : user_serializer_create email pw nm = Except.ok u) :
    (user_to_representation u).map Prod.fst = ["email", "name"] ∧
    (∀ kv ∈ user_to_representation u, kv.1 ≠ "password") ∧
    u.password = set_password pw := by
  refine ⟨rfl, ?_, ?_⟩
  · intro kv hkv
    have hcase : kv = ("email", userFieldValue u "email") ∨
        kv = ("name", userFieldValue u "name") := by
      simpa [user_to_representation, userSerializerFields] using hkv
    rcases hcase with rfl | rfl <;> simp
  · unfold user_serializer_create at h
    by_cases h5 : pw.length < 5
    · rw [if_pos h5] at h
      exact Except.noConfusion h
    · rw [if_neg h5] at h
      unfold create_user at h
      by_cases he : email = ""
      · rw [if_pos he] at h
        exact Except.noConfusion h
      · rw [if_neg he] at h
        injection h with h2
        rw [← h2]

/-- Witness for C9 at a concrete registration. -/
theorem registration_password_hidden_witness :
    (user_to_representation
        { email := normalize_email "a@a.com", name := "Ann", password := set_password "pass123" }).map
      Prod.fst = ["email", "name"] ∧
    (∀ kv ∈ user_to_representation
        { email := normalize_email "a@a.com", name := "Ann", password := set_password "pass123" },
      kv.1 ≠ "password") ∧
    ({ email := normalize_email "a@a.com", name := "Ann",
        password := set_password "pass123" } : User).password = set_password "pass123" :=
  registration_password_hidden "a@a.com" "pass123" "Ann" _ (by rfl)

/-- C1: with no query filters, every list operation returns only entities
whose owner field equals the requesting user, so an entity created by a
distinct user U1 never appears in U2's default listing. -/
theorem default_listing_owner_scoped (db : DB) (u1 u2 : Nat) (hne : u1 ≠ u2) :
    ((∀ g ∈ ingredient_get_queryset db u2, g.user = u2) ∧
      ∀ g ∈ db.ingredients, g.user = u1 → g ∉ ingredient_get_queryset db u2) ∧
    (∀ res, tag_get_queryset db u2 none = some res →
      (∀ t ∈ res, t.user = u2) ∧ ∀ t ∈ db.tags, t.user = u1 → t ∉ res) ∧
    (∀ res, recipe_get_queryset db u2 none none = some res →
      (∀ r ∈ res, r.user = u2) ∧ ∀ r ∈ db.recipes, r.user = u1 → r ∉ res) := by
  have hmemtag : ∀ t : Tag,
      (t ∈ (List.insertionSort nameDesc (db.tags.filter (fun t => t.user = u2))).dedup) ↔
        t ∈ db.tags ∧ t.user = u2 := by
    intro t
    rw [List.mem_dedup, List.mem_insertionSort, List.mem_filter]
    simp
  refine ⟨⟨?_, ?_⟩, ?_, ?_⟩
  · intro g hg
    simpa using (List.mem_filter.mp hg).2
  · intro g _ hgu hmem
    have h2 := (List.mem_filter.mp hmem).2
    simp only [decide_eq_true_eq] at h2
    exact hne (by rw [← hgu, h2])
  · intro res hres
    have heq : tag_get_queryset db u2 none =
        some ((List.insertionSort nameDesc (db.tags.filter (fun t => t.user = u2))).dedup) := rfl
    rw [heq] at hres
    injection hres with h2
    subst h2
    constructor
    · intro t ht
      exact ((hmemtag t).mp ht).2
    · intro t _ htu hmem
      exact hne (by rw [← htu, ((hmemtag t).mp hmem).2])
  · intro res hres
    have heq : recipe_get_queryset db u2 none none =
        some (db.recipes.filter (fun r => r.user = u2)) := rfl
    rw [heq] at hres
    injection hres with h2
    subst h2
    constructor
    · intro r hr
      simpa using (List.mem_filter.mp hr).2
    · intro r _ hru hmem
      have h2 := (List.mem_filter.mp hmem).2
      simp only [decide_eq_true_eq] at h2
      exact hne (by rw [← hru, h2])

/-- Witness for C1 at the concrete two-user database, users 2 and 1. -/
theorem default_listing_owner_scoped_witness :
    ((∀ g ∈ ingredient_get_queryset exDB 1, g.user = 1) ∧
      ∀ g ∈ exDB.ingredients, g.user = 2 → g ∉ ingredient_get_queryset exDB 1) ∧
    (∀ res, tag_get_queryset exDB 1 none = some res →
      (∀ t ∈ res, t.user = 1) ∧ ∀ t ∈ exDB.tags, t.user = 2 → t ∉ res) ∧
    (∀ res, recipe_get_queryset exDB 1 none none = some res →
      (∀ r ∈ res, r.user = 1) ∧ ∀ r ∈ exDB.recipes, r.user = 2 → r ∉ res) :=
  default_listing_owner_scoped exDB 2 1 (by decide)

/-- C2: recipe list precedence — a truthy `tag` parameter selects exactly
the recipes having at least one tag id in the parsed id set, for every
requesting user and whatever the `ingredient` parameter holds; with `tag`
absent or empty and `ingredient` truthy, the same for ingredient ids; with
neither, exactly the requesting user's recipes. -/
theorem recipe_filter_precedence (db : DB) (u : Nat) (tagP ingP : Option String) :
    (∀ s ids, tagP = some s → s ≠ "" → params_to_ints s = some ids →
      ∃ res, recipe_get_queryset db u tagP ingP = some res ∧
        ∀ r, r ∈ res ↔ r ∈ db.recipes ∧ ∃ tid ∈ r.tag, (tid : Int) ∈ ids) ∧
    ((tagP = none ∨ tagP = some "") → ∀ s ids, ingP = some s → s ≠ "" →
      params_to_ints s = some ids →
      ∃ res, recipe_get_queryset db u tagP ingP = some res ∧
        ∀ r, r ∈ res ↔ r ∈ db.recipes ∧ ∃ gid ∈ r.ingredient, (gid : Int) ∈ ids) ∧
    ((tagP = none ∨ tagP = some "") → (ingP = none ∨ ingP = some "") →
      ∃ res, recipe_get_queryset db u tagP ingP = some res ∧
        ∀ r, r ∈ res ↔ r ∈ db.recipes ∧ r.user = u) := by
  refine ⟨?_, ?_, ?_⟩
  · rintro s ids rfl hs hids
    have htr : truthy (some s) = true := by simp [truthy, hs]
    refine ⟨db.recipes.filter (fun r => r.tag.any (fun t => ids.contains (t : Int))), ?_, ?_⟩
    · unfold recipe_get_queryset
      rw [if_pos htr]
      simp only [Option.getD_some, hids]
    · intro r
      simp [List.mem_filter, List.any_eq_true, List.elem_iff]
  · rintro htag s ids rfl hs hids
    have htagf : truthy tagP = false := by
      rcases htag with rfl | rfl <;> simp [truthy]
    have htr : truthy (some s) = true := by simp [truthy, hs]
    refine ⟨db.recipes.filter (fun r => r.ingredient.any (fun g => ids.contains (g : Int))), ?_, ?_⟩
    · unfold recipe_get_queryset
      rw [if_neg (by simp [htagf]), if_pos htr]
      simp only [Option.getD_some, hids]
    · intro r
      simp [List.mem_filter, List.any_eq_true, List.elem_iff]
  · intro htag hing
    have htagf : truthy tagP = false := by
      rcases htag with rfl | rfl <;> simp [truthy]
    have hingf : truthy ingP = false := by
      rcases hing with rfl | rfl <;> simp [truthy]
    refine ⟨db.recipes.filter (fun r => r.user = u), ?_, ?_⟩
    · unfold recipe_get_queryset
      rw [if_neg (by simp [htagf]), if_neg (by simp [hingf])]
    · intro r
      simp [List.mem_filter]

/-- Witness for C2 at the concrete database: the tag-filter path for user 1
with `tag=1,3` and a dangling `ingredient` parameter. -/
theorem recipe_filter_precedence_witness :
    ∃ res, recipe_get_queryset exDB 1 (some "1,3") (some "2") = some res ∧
      ∀ r, r ∈ res ↔ r ∈ exDB.recipes ∧ ∃ tid ∈ r.tag, (tid : Int) ∈ [(1 : Int), 3] :=
  (recipe_filter_precedence exDB 1 (some "1,3") (some "2")).1 "1,3" [(1 : Int), 3]
    rfl (by decide) (by decide)

/-- C3 counterexample: in the concrete database, ingredient 2 belongs to
user 2 and is excluded from user 1's ingredient listing, and user 2's
recipe is excluded from user 1's base recipe listing — the base listings DO
filter by owner, contradicting the claim that they do not. -/
theorem base_listing_unscoped_counterexample :
    (⟨2, 2, "pepper"⟩ : Ingredient) ∈ exDB.ingredients ∧
    (⟨2, 2, "pepper"⟩ : Ingredient) ∉ ingredient_get_queryset exDB 1 ∧
    (⟨2, 2, "Stew", 20, "4.00", "", [2], [1, 3]⟩ : Recipe) ∈ exDB.recipes ∧
    recipe_get_queryset exDB 1 none none =
      some [⟨1, 1, "Soup", 10, "3.50", "", [1], [1]⟩] := by decide

/-- C3 (amended): the Ingredient list and the base Recipe list DO filter by
owning user, exactly like the Tag list; only the tag-filter and
ingredient-filter paths of the recipe list bypass owner scoping — their
result is identical for every requesting user. -/
theorem scoping_amended (db : DB) (u : Nat) :
    (∀ g, g ∈ ingredient_get_queryset db u ↔ g ∈ db.ingredients ∧ g.user = u) ∧
    (∀ res, recipe_get_queryset db u none none = some res →
      ∀ r, r ∈ res ↔ r ∈ db.recipes ∧ r.user = u) ∧
    (∀ res, tag_get_queryset db u none = some res →
      ∀ t, t ∈ res ↔ t ∈ db.tags ∧ t.user = u) ∧
    (∀ u2 tagP ingP, truthy tagP = true ∨ truthy ingP = true →
      recipe_get_queryset db u tagP ingP = recipe_get_queryset db u2 tagP ingP) := by
  refine ⟨?_, ?_, ?_, ?_⟩
  · intro g
    simp [ingredient_get_queryset, List.mem_filter]
  · intro res hres
    have heq : recipe_get_queryset db u none none =
        some (db.recipes.filter (fun r => r.user = u)) := rfl
    rw [heq] at hres
    injection hres with h2
    subst h2
    intro r
    simp [List.mem_filter]
  · intro res hres
    have heq : tag_get_queryset db u none =
        some ((List.insertionSort nameDesc (db.tags.filter (fun t => t.user = u))).dedup) := rfl
    rw [heq] at hres
    injection hres with h2
    subst h2
    intro t
    rw [List.mem_dedup, List.mem_insertionSort, List.mem_filter]
    simp
  · intro u2 tagP ingP htr
    unfold recipe_get_queryset
    cases ht : truthy tagP with
    | true => rfl
    | false =>
      cases hi : truthy ingP with
      | true => rfl
      | false =>
        rw [ht] at htr
        rw [hi] at htr
        rcases htr with h | h <;> exact Bool.noConfusion h

/-- Witness for the amended C3 at the concrete database. -/
theorem scoping_amended_witness :
    ((⟨1, 1, "salt"⟩ : Ingredient) ∈ ingredient_get_queryset exDB 1 ↔
      (⟨1, 1, "salt"⟩ : Ingredient) ∈ exDB.ingredients ∧ (1 : Nat) = 1) ∧
    recipe_get_queryset exDB 1 (some "1") none = recipe_get_queryset exDB 2 (some "1") none :=
  ⟨(scoping_amended exDB 1).1 ⟨1, 1, "salt"⟩,
   (scoping_amended exDB 1).2.2.2 2 (some "1") none (Or.inl (by decide))⟩

/-- C10: if a truthy `tag` (or `ingredient`) parameter has a comma-separated
element that is not an integer literal, the recipe list raises an unhandled
error (none); when every element parses the operation succeeds; an
empty-string parameter falls back to the owner-scoped listing. -/
theorem recipe_filter_param_parsing (db : DB) (u : Nat) :
    (∀ s ingP, s ≠ "" → (∃ part ∈ splitChars ',' s.data, pyIntChars part = none) →
      recipe_get_queryset db u (some s) ingP = none) ∧
    (∀ s ingP, s ≠ "" → (∀ part ∈ splitChars ',' s.data, (pyIntChars part).isSome = true) →
      (recipe_get_queryset db u (some s) ingP).isSome = true) ∧
    (∀ s tagP, (tagP = none ∨ tagP = some "") → s ≠ "" →
      (∃ part ∈ splitChars ',' s.data, pyIntChars part = none) →
      recipe_get_queryset db u tagP (some s) = none) ∧
    (recipe_get_queryset db u (some "") (some "") =
      some (db.recipes.filter (fun r => r.user = u))) := by
  refine ⟨?_, ?_, ?_, rfl⟩
  · intro s ingP hs hbad
    have hnone : params_to_ints s = none := (mapOption_eq_none_iff _ _).mpr hbad
    unfold recipe_get_queryset
    rw [if_pos (by simp [truthy, hs])]
    simp only [Option.getD_some, hnone]
  · intro s ingP hs hgood
    have hsome : (params_to_ints s).isSome = true :=
      (mapOption_isSome_iff _ _).mpr hgood
    unfold recipe_get_queryset
    rw [if_pos (by simp [truthy, hs])]
    obtain ⟨ids, hids⟩ := Option.isSome_iff_exists.mp hsome
    simp only [Option.getD_some, hids, Option.isSome_some]
  · intro s tagP htag hs hbad
    have hnone : params_to_ints s = none := (mapOption_eq_none_iff _ _).mpr hbad
    have htagf : truthy tagP = false := by
      rcases htag with rfl | rfl <;> simp [truthy]
    unfold recipe_get_queryset
    rw [if_neg (by simp [htagf]), if_pos (by simp [truthy, hs])]
    simp only [Option.getD_some, hnone]

/-- Witness for C10: `tag=1,x` raises, `tag=1,2` succeeds, `tag=` (empty)
falls back to the owner scope. -/
theorem recipe_filter_param_parsing_witness :
    recipe_get_queryset exDB 1 (some "1,x") none = none ∧
    (recipe_get_queryset exDB 1 (some "1,2") none).isSome = true ∧
    recipe_get_queryset exDB 1 (some "") (some "") =
      some (exDB.recipes.filter (fun r => r.user = 1)) :=
  ⟨(recipe_filter_param_parsing exDB 1).1 "1,x" none (by decide) (by decide),
   (recipe_filter_param_parsing exDB 1).2.1 "1,2" none (by decide) (by decide),
   (recipe_filter_param_parsing exDB 1).2.2.2⟩

/-- C4: a successful full update (PUT) whose payload lists exactly one tag
id leaves the recipe with exactly that tag — the previous tag set, whatever
its size, is replaced, not merged. -/
theorem put_single_tag_replaces (db : DB) (r r2 : Recipe) (p : RecipePayload) (tid : Nat)
    (hp : p.tag = some [tid]) (h : recipe_update db r p false = Except.ok r2) :
    r2.tag = [tid] := by
  unfold recipe_update at h
  by_cases hreq : (!false && !requiredPresent p) = true
  · rw [if_pos hreq] at h
    exact Except.noConfusion h
  · rw [if_neg hreq] at h
    cases hvt : validate_tag_field db p with
    | error e => rw [hvt] at h; exact Except.noConfusion h
    | ok tags =>
      rw [hvt] at h
      cases hvi : validate_ingredient_field db p with
      | error e => rw [hvi] at h; exact Except.noConfusion h
      | ok ings =>
        rw [hvi] at h
        injection h with h2
        unfold validate_tag_field at hvt
        rw [hp] at hvt
        have hvt2 : Except.map some (resolveIds Tag.id db.tags [tid]) = Except.ok tags := hvt
        cases hres : resolveIds Tag.id db.tags [tid] with
        | error e => rw [hres] at hvt2; exact Except.noConfusion hvt2
        | ok ts =>
          rw [hres] at hvt2
          simp only [Except.map] at hvt2
          injection hvt2 with h3
          subst h3
          rw [← h2]
          show (ts.map Tag.id).dedup = [tid]
          rw [(resolveIds_ok_map Tag.id db.tags [tid] ts hres).1]
          simp

/-- Witness for C4: a concrete PUT carrying tag id 2 onto a recipe that had
tag 1 ends with tag set exactly [2]. -/
theorem put_single_tag_replaces_witness :
    ({ id := 1, user := 1, title := "S", time := 5, price := "1.00", link := "",
       ingredient := [1], tag := [2] } : Recipe).tag = [2] :=
  put_single_tag_replaces exDB ⟨1, 1, "Soup", 10, "3.50", "", [1], [1]⟩ _
    { title := some "S", time := some 5, price := some "1.00",
      tag := some [2], ingredient := some [1] } 2 rfl (by rfl)

/-- C5: a successful partial update (PATCH) whose payload omits the
ingredient field leaves the recipe's ingredient set exactly as it was,
while every scalar field present in the payload is updated. -/
theorem patch_omitted_ingredient_unchanged (db : DB) (r r2 : Recipe) (p : RecipePayload)
    (hp : p.ingredient = none) (h : recipe_update db r p true = Except.ok r2) :
    r2.ingredient = r.ingredient ∧
    (∀ v, p.title = some v → r2.title = v) ∧
    (∀ v, p.time = some v → r2.time = v) ∧
    (∀ v, p.price = some v → r2.price = v) ∧
    (∀ v, p.link = some v → r2.link = v) := by
  unfold recipe_update at h
  rw [if_neg (by simp)] at h
  cases hvt : validate_tag_field db p with
  | error e => rw [hvt] at h; exact Except.noConfusion h
  | ok tags =>
    rw [hvt] at h
    cases hvi : validate_ingredient_field db p with
    | error e => rw [hvi] at h; exact Except.noConfusion h
    | ok ings =>
      rw [hvi] at h
      unfold validate_ingredient_field at hvi
      rw [hp] at hvi
      injection hvi with h3
      subst h3
      injection h with h2
      subst h2
      refine ⟨rfl, ?_, ?_, ?_, ?_⟩ <;> intro v hv <;> simp [hv]

/-- Witness for C5: a concrete PATCH setting only the title keeps the
ingredient set [1] and applies the new title. -/
theorem patch_omitted_ingredient_unchanged_witness :
    ({ id := 1, user := 1, title := "New", time := 10, price := "3.50", link := "",
       ingredient := [1], tag := [1] } : Recipe).ingredient =
      (⟨1, 1, "Soup", 10, "3.50", "", [1], [1]⟩ : Recipe).ingredient ∧
    (∀ v, ({ title := some "New" } : RecipePayload).title = some v →
      ({ id := 1, user := 1, title := "New", time := 10, price := "3.50", link := "",
         ingredient := [1], tag := [1] } : Recipe).title = v) ∧
    (∀ v, ({ title := some "New" } : RecipePayload).time = some v →
      ({ id := 1, user := 1, title := "New", time := 10, price := "3.50", link := "",
         ingredient := [1], tag := [1] } : Recipe).time = v) ∧
    (∀ v, ({ title := some "New" } : RecipePayload).price = some v →
      ({ id := 1, user := 1, title := "New", time := 10, price := "3.50", link := "",
         ingredient := [1], tag := [1] } : Recipe).price = v) ∧
    (∀ v, ({ title := some "New" } : RecipePayload).link = some v →
      ({ id := 1, user := 1, title := "New", time := 10, price := "3.50", link := "",
         ingredient := [1], tag := [1] } : Recipe).link = v) :=
  patch_omitted_ingredient_unchanged exDB ⟨1, 1, "Soup", 10, "3.50", "", [1], [1]⟩ _
    { title := some "New" } rfl (by rfl)

/-- C8: resolving the listed relationship ids fails (ValidationError) iff
some listed id matches no row of the GLOBAL table — the owner field plays no
role, so a recipe's relation set may come to contain entities owned by
another user; on success the resolved rows carry exactly the listed ids. -/
theorem relation_ids_resolution (db : DB) (ids : List Nat) :
    ((∃ e, resolve_tag_ids db ids = Except.error e) ↔
      ∃ i ∈ ids, ∀ t ∈ db.tags, t.id ≠ i) ∧
    (∀ ts, resolve_tag_ids db ids = Except.ok ts →
      ts.map Tag.id = ids ∧ ∀ t ∈ ts, t ∈ db.tags) ∧
    ((∃ e, resolve_ingredient_ids db ids = Except.error e) ↔
      ∃ i ∈ ids, ∀ g ∈ db.ingredients, g.id ≠ i) ∧
    (∀ gs, resolve_ingredient_ids db ids = Except.ok gs →
      gs.map Ingredient.id = ids ∧ ∀ g ∈ gs, g ∈ db.ingredients) ∧
    (∀ (r : Recipe) (p : RecipePayload), p.tag = some ids → p.ingredient = none →
      ((∃ e, recipe_update db r p true = Except.error e) ↔
        ∃ i ∈ ids, ∀ t ∈ db.tags, t.id ≠ i)) := by
  refine ⟨resolveIds_error_iff _ _ _, fun ts h => resolveIds_ok_map _ _ _ ts h,
    resolveIds_error_iff _ _ _, fun gs h => resolveIds_ok_map _ _ _ gs h, ?_⟩
  intro r p hp hpi
  have hval : validate_tag_field db p = Except.map some (resolveIds Tag.id db.tags ids) := by
    unfold validate_tag_field
    rw [hp]
    rfl
  have hvali : validate_ingredient_field db p = Except.ok none := by
    unfold validate_ingredient_field
    rw [hpi]
  have keyOk : ∀ ts, resolveIds Tag.id db.tags ids = Except.ok ts →
      recipe_update db r p true = Except.ok { r with
        title := p.title.getD r.title
        time := p.time.getD r.time
        price := p.price.getD r.price
        link := p.link.getD r.link
        tag := (ts.map Tag.id).dedup } := by
    intro ts hts
    unfold recipe_update
    rw [if_neg (by simp), hval, hts, hvali]
    rfl
  have keyErr : ∀ e, resolveIds Tag.id db.tags ids = Except.error e →
      recipe_update db r p true = Except.error e := by
    intro e hts
    unfold recipe_update
    rw [if_neg (by simp), hval, hts]
    rfl
  constructor
  · rintro ⟨e, he⟩
    by_contra hng
    have hall : ∀ i ∈ ids, ∃ t ∈ db.tags, t.id = i := by
      intro i hi
      by_contra hni
      push_neg at hni
      exact hng ⟨i, hi, fun t ht hidt => (hni t ht) hidt⟩
    obtain ⟨ts, hts⟩ := (resolveIds_ok_iff Tag.id db.tags ids).mpr hall
    rw [keyOk ts hts] at he
    exact Except.noConfusion he
  · intro hbad
    obtain ⟨e, hres⟩ := (resolveIds_error_iff Tag.id db.tags ids).mpr hbad
    exact ⟨e, keyErr e hres⟩

/-- Witness for C8: user 2's tag 3 resolves for a payload sent by user 1 —
the resolved row set carries the listed id and lives in the global table,
regardless of owner. -/
theorem relation_ids_resolution_witness :
    [(⟨3, 2, "c"⟩ : Tag)].map Tag.id = [3] ∧ ∀ t ∈ [(⟨3, 2, "c"⟩ : Tag)], t ∈ exDB.tags :=
  (relation_ids_resolution exDB [3]).2.1 [⟨3, 2, "c"⟩] (by rfl)

/-- C6: whenever the tag listing succeeds (the `assigned_only` parameter
parsed to the integer n), its result contains exactly the requesting user's
tags — restricted, when the flag is truthy (n ≠ 0), to tags referenced by
at least one recipe of any user — with each tag at most once and ordered by
name descending. -/
theorem tag_assigned_only_listing (db : DB) (u : Nat) (p : Option String) (n : Int)
    (res : List Tag)
    (hn : (match p with | none => some (0 : Int) | some s => pyInt s) = some n)
    (hres : tag_get_queryset db u p = some res) :
    (∀ t, t ∈ res ↔ t ∈ db.tags ∧ t.user = u ∧
      (n ≠ 0 → ∃ r ∈ db.recipes, t.id ∈ r.tag)) ∧
    res.Nodup ∧ List.Sorted nameDesc res := by
  unfold tag_get_queryset at hres
  rw [hn] at hres
  injection hres with h2
  subst h2
  refine ⟨?_, List.nodup_dedup _, ?_⟩
  · intro t
    rw [List.mem_dedup, List.mem_insertionSort, List.mem_filter]
    by_cases hnz : n ≠ 0
    · rw [if_pos hnz, mem_tagAssignedRows]
      simp only [hnz, ne_eq, not_false_eq_true, true_implies, decide_eq_true_eq]
      tauto
    · rw [if_neg hnz]
      simp only [ne_eq, not_not] at hnz
      simp [hnz]
  · exact List.Pairwise.sublist (List.dedup_sublist _)
      (List.sorted_insertionSort nameDesc _)

/-- Witness for C6: `assigned_only=1` for user 1 on the concrete database
yields exactly tag 1 (tag 2 is unassigned, tag 3 belongs to user 2), with
no duplicate even though two recipes reference tag 1. -/
theorem tag_assigned_only_listing_witness :
    (∀ t, t ∈ ([⟨1, 1, "b"⟩] : List Tag) ↔ t ∈ exDB.tags ∧ t.user = 1 ∧
      ((1 : Int) ≠ 0 → ∃ r ∈ exDB.recipes, t.id ∈ r.tag)) ∧
    ([⟨1, 1, "b"⟩] : List Tag).Nodup ∧ List.Sorted nameDesc ([⟨1, 1, "b"⟩] : List Tag) :=
  tag_assigned_only_listing exDB 1 (some "1") 1 [⟨1, 1, "b"⟩] (by rfl) (by rfl)

end RecipeApp
